import Mathlib

/-!
Verification development for the bank-reconciliation engine of the
`bank-reconciliation-arg` repository.

The Python sources `src/bank_reconciliation.py` (class `BankReconciliation`)
and `src/reconciliator.py` (class `Reconciliator`) are shallowly embedded
below: cell values of spreadsheet / database columns become the inductive
type `Cell`, pandas dataframes become Lean lists of typed row records,
Python `datetime` values restricted to midnight (the only ones the code
produces) become calendar triples `DateV`, Python floats become rationals,
and database/transaction effects become explicit state passing on a list of
`Comprobante` rows together with `Except`-style error propagation.

String-manipulating Python code (`str.replace` of single characters,
`str.split("-")`, `str.strip`, digit filtering) is embedded on `List Char`,
which matches the Python semantics character-for-character on the relevant
operations while keeping every definition executable and provable.
-/

namespace BankRec

/-- Model of Python `str.strip()` (and of `String.trim`): drop whitespace
from both ends of a character list. -/
def pyStrip (l : List Char) : List Char :=
  ((l.dropWhile Char.isWhitespace).reverse.dropWhile Char.isWhitespace).reverse

/-- Model of Python `str.split(sep)` for a single-character separator:
split a character list at every occurrence of `sep`.  Always returns a
non-empty list of parts. -/
def splitOnChar (sep : Char) : List Char → List (List Char)
  | [] => [[]]
  | c :: rest =>
    let r := splitOnChar sep rest
    if c = sep then
      [] :: r
    else
      match r with
      | [] => [[c]]
      | h :: t => (c :: h) :: t

/-- Numeric value of a list of decimal digit characters (most significant
first), as produced by Python `int(...)` on a digit string. -/
def natOfDigits (l : List Char) : ℕ :=
  l.foldl (fun acc c => acc * 10 + (c.toNat - '0'.toNat)) 0

/-- Model of Python `str.isdigit()` restricted to ASCII: true iff the
string is non-empty and all characters are decimal digits. -/
def pyIsDigit (l : List Char) : Bool :=
  !l.isEmpty && l.all Char.isDigit

/-- A calendar date (what a Python `datetime` at midnight carries, which is
all the reconciliation code ever constructs from date strings). -/
structure DateV where
  year : ℕ
  month : ℕ
  day : ℕ
deriving DecidableEq, Repr

/-- Gregorian leap-year rule, as used by Python's `datetime` validation. -/
def isLeap (y : ℕ) : Bool :=
  (y % 4 = 0 && y % 100 ≠ 0) || y % 400 = 0

/-- Number of days in a month, as used by Python's `datetime` validation. -/
def daysInMonth (y m : ℕ) : ℕ :=
  if m = 2 then (if isLeap y then 29 else 28)
  else if m = 4 ∨ m = 6 ∨ m = 9 ∨ m = 11 then 30
  else 31

/-- Day number of a civil date (days since 0000-03-01, Gregorian,
computed with the standard era decomposition).  `(d1 - d2).days` on two
midnight Python datetimes equals `daysFromCivil d1 - daysFromCivil d2`. -/
def daysFromCivil (dt : DateV) : ℤ :=
  let y := if dt.month ≤ 2 then dt.year - 1 else dt.year
  let era := y / 400
  let yoe := y % 400
  let mp := (dt.month + 9) % 12
  let doy := (153 * mp + 2) / 5 + dt.day - 1
  let doe := yoe * 365 + yoe / 4 - yoe / 100 + doy
  (era * 146097 + doe : ℕ)

/-- Field order of a `strptime`-style date format: `%d/%m/%Y`-like or
`%Y-%m-%d`-like. -/
inductive Ord3 where
  | dmy
  | ymd
deriving DecidableEq, Repr

/-- A date format of the shape used by the reconciliation configuration and
by the hard-coded fallback list: three numeric fields (day/month/year in one
of the two orders) joined by a single separator character. -/
structure Fmt where
  ord : Ord3
  sep : Char
deriving DecidableEq, Repr

/-- CPython `strptime` `%d` field: `3[01]|[12]\d|0[1-9]|[1-9]`, i.e. one or
two digits with value 1..31 ("00" excluded). -/
def parseDayL (l : List Char) : Option ℕ :=
  if !l.isEmpty ∧ l.length ≤ 2 ∧ l.all Char.isDigit then
    let v := natOfDigits l
    if 1 ≤ v ∧ v ≤ 31 then some v else none
  else none

/-- CPython `strptime` `%m` field: `1[0-2]|0[1-9]|[1-9]`, i.e. one or two
digits with value 1..12 ("00" excluded). -/
def parseMonthL (l : List Char) : Option ℕ :=
  if !l.isEmpty ∧ l.length ≤ 2 ∧ l.all Char.isDigit then
    let v := natOfDigits l
    if 1 ≤ v ∧ v ≤ 12 then some v else none
  else none

/-- CPython `strptime` `%Y` field: `\d\d\d\d`, exactly four digits. -/
def parseYearL (l : List Char) : Option ℕ :=
  if l.length = 4 ∧ l.all Char.isDigit then some (natOfDigits l) else none

/-- Validation performed by the Python `datetime` constructor after
`strptime` has matched: `MINYEAR ≤ year` and the day fits the month. -/
def mkDateV (y m d : ℕ) : Option DateV :=
  if 1 ≤ y ∧ 1 ≤ m ∧ m ≤ 12 ∧ 1 ≤ d ∧ d ≤ daysInMonth y m then
    some ⟨y, m, d⟩
  else none

/-- Model of `datetime.strptime(s, fmt)` for the formats the code uses:
the string must decompose into exactly three separator-joined fields, each
matching its `strptime` field pattern, and the resulting date must be a
valid calendar date; otherwise the call raises `ValueError` (here: `none`). -/
def parseFmt (f : Fmt) (l : List Char) : Option DateV :=
  match splitOnChar f.sep l with
  | [a, b, c] =>
    match f.ord with
    | .dmy =>
      match parseDayL a, parseMonthL b, parseYearL c with
      | some d, some m, some y => mkDateV y m d
      | _, _, _ => none
    | .ymd =>
      match parseYearL a, parseMonthL b, parseDayL c with
      | some y, some m, some d => mkDateV y m d
      | _, _, _ => none
  | _ => none

/-- The hard-coded fallback list of `_parse_fecha`:
`['%d/%m/%Y', '%Y-%m-%d', '%d-%m-%Y', '%Y/%m/%d']`. -/
def commonFormats : List Fmt :=
  [⟨.dmy, '/'⟩, ⟨.ymd, '-'⟩, ⟨.dmy, '-'⟩, ⟨.ymd, '/'⟩]

/-- The `for fmt in common_formats` loop of `_parse_fecha`: try each format
in order, returning the first successful parse, `none` if all fail. -/
def tryFormats : List Fmt → List Char → Option DateV
  | [], _ => none
  | f :: rest, l =>
    match parseFmt f l with
    | some d => some d
    | none => tryFormats rest l

/-- A raw spreadsheet / database cell as the Python code observes it:
missing (`NaN`/`None`, i.e. `pd.isna` is true), a string, or a `datetime`
value (spreadsheet date cells arrive as midnight datetimes). -/
inductive Cell where
  | na
  | cstr (s : String)
  | cdate (d : DateV)
deriving DecidableEq, Repr

/-- Left-pad a numeral with zeros to two characters (for `str(datetime)`). -/
def pad2 (n : ℕ) : String :=
  if n < 10 then "0" ++ toString n else toString n

/-- Python `str(...)` on a midnight datetime: `"YYYY-MM-DD 00:00:00"`. -/
def dateToStr (d : DateV) : String :=
  toString d.year ++ "-" ++ pad2 d.month ++ "-" ++ pad2 d.day ++ " 00:00:00"

/-- Python `str(...)` applied to a non-missing cell. -/
def cellStr : Cell → String
  | .na => ""
  | .cstr s => s
  | .cdate d => dateToStr d

/-- Python truthiness test `not cell` combined with `pd.isna(cell)`:
true for missing cells and for the empty string (datetimes are truthy). -/
def cellBlank : Cell → Bool
  | .na => true
  | .cstr s => s = ""
  | .cdate _ => false

/-- The reconciliation configuration (`bank_config.json`): the
`data_formats`, `tolerances` and `column_mapping` sections consumed by
`BankReconciliation`. -/
structure Config where
  fecha_format : Fmt
  monto_decimal_separator : Char
  monto_thousands_separator : Char
  tolerancia_dias : ℤ
  tolerancia_monto : ℚ
  map_fecha : String
  map_cuit : String
  map_monto : String
deriving DecidableEq, Repr

/-- `col_mapping.values()` in `load_bank_excel`: the configured source
column names, in the order fecha, cuit, monto. -/
def mappingValues (cfg : Config) : List String :=
  [cfg.map_fecha, cfg.map_cuit, cfg.map_monto]

/-- `BankReconciliation._parse_fecha`: missing/blank input gives `None`;
a `datetime` is returned as is; a string is stripped and parsed first with
the configured primary format, then with the fixed fallback list
`common_formats`; `None` if every format fails. -/
def parse_fecha (primary : Fmt) (fecha : Cell) : Option DateV :=
  if cellBlank fecha then none
  else
    match fecha with
    | .cdate d => some d
    | c =>
      let l := pyStrip (cellStr c).data
      match parseFmt primary l with
      | some d => some d
      | none => tryFormats commonFormats l

/-- `BankReconciliation._normalize_cuit`: missing/blank input gives `""`;
otherwise remove every hyphen, space and dot (three single-character
`str.replace(_, "")` calls) and strip the result. -/
def normalize_cuit (cuit : Cell) : String :=
  if cellBlank cuit then ""
  else
    let l := (cellStr cuit).data
    let l := ((l.filter (· ≠ '-')).filter (· ≠ ' ')).filter (· ≠ '.')
    String.mk (pyStrip l)

/-- Model of Python `float(s)` on a string already free of whitespace and
currency symbols: an optional sign, then a decimal mantissa
(`digits`, `digits.digits`, `digits.` or `.digits`), then an optional
exponent part; `none` models `ValueError`.  (`inf`/`nan` literals are not
modelled; no claim depends on them.) -/
def parseMantissa (l : List Char) : Option ℚ :=
  let d1 := l.takeWhile Char.isDigit
  let rest := l.dropWhile Char.isDigit
  match rest with
  | [] => if d1.isEmpty then none else some (natOfDigits d1)
  | '.' :: frac =>
    if frac.all Char.isDigit ∧ (!d1.isEmpty || !frac.isEmpty) then
      some ((natOfDigits d1 : ℚ) + (natOfDigits frac : ℚ) / 10 ^ frac.length)
    else none
  | _ => none

/-- Exponent part of a Python float literal: `e`/`E`, optional sign, at
least one digit. -/
def parseExponent (l : List Char) : Option ℤ :=
  match l with
  | [] => some 0
  | e :: rest =>
    if e = 'e' ∨ e = 'E' then
      let (sgn, ds) : ℤ × List Char :=
        match rest with
        | '+' :: r => (1, r)
        | '-' :: r => (-1, r)
        | r => (1, r)
      if !ds.isEmpty && ds.all Char.isDigit then some (sgn * natOfDigits ds)
      else none
    else none

/-- Model of Python `float(s)`. -/
def parseFloat (l : List Char) : Option ℚ :=
  let (sgn, m) : ℚ × List Char :=
    match l with
    | '+' :: r => (1, r)
    | '-' :: r => (-1, r)
    | r => (1, r)
  let mant := m.takeWhile (fun c => c ≠ 'e' ∧ c ≠ 'E')
  let expPart := m.dropWhile (fun c => c ≠ 'e' ∧ c ≠ 'E')
  match parseMantissa mant, parseExponent expPart with
  | some q, some e => some (sgn * q * 10 ^ e)
  | _, _ => none

/-- `BankReconciliation._normalize_monto`: missing/blank input gives `0.0`;
otherwise `str(monto).strip()`, remove `$` and whitespace anywhere, and —
when the configured decimal separator is `','` — delete the thousands
separator and turn the comma into a period; finally `float(...)`, with
`ValueError` recovered as `0.0` (plus a console warning). -/
def normalize_monto (cfg : Config) (monto : Cell) : ℚ :=
  if cellBlank monto then 0
  else
    let l := pyStrip (cellStr monto).data
    let l := l.filter (fun c => ¬ (c = '$' ∨ c.isWhitespace))
    let l :=
      if cfg.monto_decimal_separator = ',' then
        (l.filter (· ≠ cfg.monto_thousands_separator)).map
          (fun c => if c = ',' then '.' else c)
      else l
    match parseFloat l with
    | some q => q
    | none => 0

/-- The segment of the input that `Reconciliator._extract_cuit_bank_excel`
scans for digits: `cuit.split("-")[1]` when the string contains a hyphen,
the whole string otherwise. -/
def scannedSegment (l : List Char) : List Char :=
  if '-' ∈ l then (splitOnChar '-' l).getD 1 [] else l

/-- `Reconciliator._extract_cuit_bank_excel`: for a string input, collect
the digit characters of the scanned segment and join them; if the joined
string satisfies `str.isdigit()` the code converts it with `int(...)` but
then falls off the end of the function without a `return`, producing
`None`; otherwise it executes `return 0`.  Non-string input hits the bare
`return`, also producing `None`. -/
def extract_cuit_bank_excel (cuit : Cell) : Option ℤ :=
  match cuit with
  | .cstr s =>
    let cuit_norm := (scannedSegment s.data).filter Char.isDigit
    if pyIsDigit cuit_norm then
      -- `cuit_norm = int(cuit_norm)` is executed here, but the function
      -- body ends without returning it.
      none
    else some 0
  | _ => none

/-- The transform stage of `Reconciliator.load_bank_excel` on the
configured cuit column: assign `cuit_norm = col.apply(_extract_cuit_bank_excel)`
and then keep the rows whose original cuit cell is not `NaN`. -/
def reconciliator_load_bank_excel (cuitCol : List Cell) : List (Cell × Option ℤ) :=
  (cuitCol.map (fun c => (c, extract_cuit_bank_excel c))).filter
    (fun p => !(p.1 = Cell.na : Bool))

/-- One row of the bank dataframe after the rename/normalize stage of
`BankReconciliation.load_bank_excel`: the renamed raw cells plus the three
normalized companion columns. -/
structure BancoRow where
  fecha : Cell
  cuit : Cell
  monto : Cell
  cuit_norm : String
  monto_norm : ℚ
  fecha_norm : Option DateV
deriving DecidableEq, Repr

/-- A row of the input spreadsheet: the cells keyed by column name. -/
def Row := List (String × Cell)

/-- Cell of a row under a column name (every dataframe row has every
column; a name that is absent only arises for ill-formed test data and is
read as missing). -/
def lookupCell (r : Row) (col : String) : Cell :=
  ((r.find? (fun p => p.1 = col)).map Prod.snd).getD Cell.na

/-- The bank spreadsheet as `pd.read_excel` delivers it: the column names
and the data rows. -/
structure Sheet where
  columns : List String
  rows : List Row

/-- The error raised by `load_bank_excel` when configured columns are
missing: the `ValueError` message names `missing`, and the console
diagnostic printed just before lists `available`. -/
structure ColumnsError where
  missing : List String
  available : List String
deriving DecidableEq, Repr

/-- `BankReconciliation.load_bank_excel` after the file read: check that
every configured source column exists (else raise `ValueError` naming the
missing columns, after printing the available ones); rename the three
configured columns to `fecha`/`cuit`/`monto`; add the normalized columns;
drop rows with missing `fecha_norm` (the `dropna` on `cuit_norm` never
drops anything, because `_normalize_cuit` returns the string `""`, not
`NaN`, for missing input); keep rows with `monto_norm > 0`. -/
def load_bank_excel (cfg : Config) (sheet : Sheet) :
    Except ColumnsError (List BancoRow) :=
  let missing := (mappingValues cfg).filter (fun c => !(c ∈ sheet.columns : Bool))
  if missing.isEmpty then
    let rows := sheet.rows.map (fun r =>
      let fecha := lookupCell r cfg.map_fecha
      let cuit := lookupCell r cfg.map_cuit
      let monto := lookupCell r cfg.map_monto
      { fecha := fecha, cuit := cuit, monto := monto
        cuit_norm := normalize_cuit cuit
        monto_norm := normalize_monto cfg monto
        fecha_norm := parse_fecha cfg.fecha_format fecha : BancoRow })
    let rows := rows.filter (fun r => r.fecha_norm.isSome)
    let rows := rows.filter (fun r => (0 : ℚ) < r.monto_norm)
    .ok rows
  else .error ⟨missing, sheet.columns⟩

/-- A persisted `comprobantes` table row (the columns the reconciliation
engine reads or writes). -/
structure Comprobante where
  id : ℤ
  banco : String
  monto : Cell
  fecha_transferencia : Cell
  remitente_id : Cell
  destinatario_id : Cell
  cliente_codigo : String
  imagen_path : String
  conciliado : Bool
  fecha_conciliacion : Option ℤ
  observaciones_conciliacion : Option String
deriving DecidableEq, Repr

/-- One row of the comprobantes dataframe built by
`load_comprobantes_from_db`: the selected columns plus the four normalized
companion columns. -/
structure CompRow where
  id : ℤ
  banco : String
  monto : Cell
  fecha_transferencia : Cell
  remitente_id : Cell
  destinatario_id : Cell
  cliente_codigo : String
  imagen_path : String
  conciliado : Bool
  monto_norm : ℚ
  fecha_norm : Option DateV
  remitente_id_norm : String
  destinatario_id_norm : String
deriving DecidableEq, Repr

/-- `BankReconciliation.load_comprobantes_from_db`: select every
comprobante row and add the normalized columns.  No row is dropped. -/
def load_comprobantes_from_db (cfg : Config) (db : List Comprobante) :
    List CompRow :=
  db.map (fun c =>
    { id := c.id, banco := c.banco, monto := c.monto
      fecha_transferencia := c.fecha_transferencia
      remitente_id := c.remitente_id
      destinatario_id := c.destinatario_id
      cliente_codigo := c.cliente_codigo
      imagen_path := c.imagen_path
      conciliado := c.conciliado
      monto_norm := normalize_monto cfg c.monto
      fecha_norm := parse_fecha cfg.fecha_format c.fecha_transferencia
      remitente_id_norm := normalize_cuit c.remitente_id
      destinatario_id_norm := normalize_cuit c.destinatario_id })

/-- `df.iterrows()`: the rows of a dataframe paired with their index
labels (our dataframes carry the default `RangeIndex`, so labels are the
positions `i, i+1, ...`). -/
def enumFrom {α : Type} : ℕ → List α → List (ℕ × α)
  | _, [] => []
  | i, a :: l => (i, a) :: enumFrom (i + 1) l

/-- One entry of the `matches` list of `match_records`: the dictionary
appended on a successful match. -/
structure MatchRec where
  comprobante_id : ℤ
  banco_idx : ℕ
  fecha_diff_dias : ℤ
  monto_diff : ℚ
  banco_row : BancoRow
  comprobante_row : CompRow
deriving DecidableEq, Repr

/-- The dictionary returned by `match_records`. -/
structure MatchResults where
  matches' : List MatchRec
  unmatched_banco : List BancoRow
  unmatched_comprobantes : List CompRow
deriving DecidableEq, Repr

/-- The inner `for idx_comp, row_comp in df_comprobantes.iterrows()` loop
of `match_records` for one bank row: skip receipts already matched, skip
on CUIT mismatch (`cuit_banco == remitente_id_norm` is the only key), then
require both dates present with `|date difference| <= tolerancia_dias` and
`|amount difference| <= tolerancia_monto`; the first receipt passing every
test is returned together with the recorded deltas (`break`). -/
def findMatch (told : ℤ) (tolm : ℚ) (b : BancoRow) (matchedComp : List ℕ) :
    List (ℕ × CompRow) → Option (ℕ × CompRow × ℤ × ℚ)
  | [] => none
  | (j, c) :: rest =>
    if j ∈ matchedComp then findMatch told tolm b matchedComp rest
    else if ¬ b.cuit_norm = c.remitente_id_norm then
      findMatch told tolm b matchedComp rest
    else
      match c.fecha_norm, b.fecha_norm with
      | some fc, some fb =>
        let fecha_diff := |daysFromCivil fc - daysFromCivil fb|
        let monto_diff := |c.monto_norm - b.monto_norm|
        if fecha_diff ≤ told ∧ monto_diff ≤ tolm then
          some (j, c, fecha_diff, monto_diff)
        else findMatch told tolm b matchedComp rest
      | _, _ => findMatch told tolm b matchedComp rest

/-- The outer `for idx_banco, row_banco in df_banco.iterrows()` loop of
`match_records`, threading the `matched_comprobantes_idx` set.  Each
produced element pairs the appended match dictionary with the receipt
index added to `matched_comprobantes_idx` at the same moment (the bank
index added to `matched_banco_idx` is the `banco_idx` field). -/
def matchLoop (told : ℤ) (tolm : ℚ) (comps : List (ℕ × CompRow)) :
    List (ℕ × BancoRow) → List ℕ → List (MatchRec × ℕ)
  | [], _ => []
  | (i, b) :: rest, matchedComp =>
    match findMatch told tolm b matchedComp comps with
    | some (j, c, fd, md) =>
      ({ comprobante_id := c.id, banco_idx := i, fecha_diff_dias := fd
         monto_diff := md, banco_row := b, comprobante_row := c }, j)
        :: matchLoop told tolm comps rest (matchedComp ++ [j])
    | none => matchLoop told tolm comps rest matchedComp

/-- `BankReconciliation.match_records`: run the greedy double loop, then
compute the unmatched sides with `~index.isin(matched_..._idx)`. -/
def match_records (told : ℤ) (tolm : ℚ) (banco : List BancoRow)
    (comps : List CompRow) : MatchResults :=
  let pairs := matchLoop told tolm (enumFrom 0 comps) (enumFrom 0 banco) []
  { matches' := pairs.map Prod.fst
    unmatched_banco :=
      ((enumFrom 0 banco).filter
        (fun ib => !(ib.1 ∈ pairs.map (fun p => p.1.banco_idx) : Bool))).map Prod.snd
    unmatched_comprobantes :=
      ((enumFrom 0 comps).filter
        (fun jc => !(jc.1 ∈ pairs.map Prod.snd : Bool))).map Prod.snd }

/-- Modelled from the spec (section 4.3, Matcher): the eligibility test of
the greedy algorithm, as one conjunction — the receipt is not yet matched,
its normalized sender tax-id is string-equal to the bank row's normalized
tax-id, both normalized dates are present and differ by at most
`date_tolerance_days`, and the amounts differ by at most
`amount_tolerance`. -/
def eligible (told : ℤ) (tolm : ℚ) (matchedComp : List ℕ) (b : BancoRow)
    (jc : ℕ × CompRow) : Bool :=
  (!(jc.1 ∈ matchedComp : Bool)) &&
  (jc.2.remitente_id_norm = b.cuit_norm : Bool) &&
  (match jc.2.fecha_norm, b.fecha_norm with
   | some fc, some fb => (|daysFromCivil fc - daysFromCivil fb| ≤ told : Bool)
   | _, _ => false) &&
  (|jc.2.monto_norm - b.monto_norm| ≤ tolm : Bool)

/-- The recorded date delta of a MatchResult (defined whenever the pair is
eligible, in which case both dates are present). -/
def dateDelta (c : CompRow) (b : BancoRow) : ℤ :=
  match c.fecha_norm, b.fecha_norm with
  | some fc, some fb => |daysFromCivil fc - daysFromCivil fb|
  | _, _ => 0

/-- Modelled from the spec (section 4.3): the greedy scan — for each bank
movement in input order, pair it with the *first* eligible receipt in
input order (`find?`), record the MatchResult and mark both as matched. -/
def specGreedyLoop (told : ℤ) (tolm : ℚ) (comps : List (ℕ × CompRow)) :
    List (ℕ × BancoRow) → List ℕ → List (MatchRec × ℕ)
  | [], _ => []
  | (i, b) :: rest, matchedComp =>
    match comps.find? (eligible told tolm matchedComp b) with
    | some (j, c) =>
      ({ comprobante_id := c.id, banco_idx := i
         fecha_diff_dias := dateDelta c b
         monto_diff := |c.monto_norm - b.monto_norm|
         banco_row := b, comprobante_row := c }, j)
        :: specGreedyLoop told tolm comps rest (matchedComp ++ [j])
    | none => specGreedyLoop told tolm comps rest matchedComp

/-- Modelled from the spec (sections 4.3 and 3): the full outcome of the
greedy first-eligible algorithm, with the unmatched sides as the input
sequences minus the matched ones. -/
def specGreedyResults (told : ℤ) (tolm : ℚ) (banco : List BancoRow)
    (comps : List CompRow) : MatchResults :=
  let pairs := specGreedyLoop told tolm (enumFrom 0 comps) (enumFrom 0 banco) []
  { matches' := pairs.map Prod.fst
    unmatched_banco :=
      ((enumFrom 0 banco).filter
        (fun ib => !(ib.1 ∈ pairs.map (fun p => p.1.banco_idx) : Bool))).map Prod.snd
    unmatched_comprobantes :=
      ((enumFrom 0 comps).filter
        (fun jc => !(jc.1 ∈ pairs.map Prod.snd : Bool))).map Prod.snd }

/-- `BankReconciliation.update_database`: collect the matched comprobante
ids; nothing to do when the list is empty; otherwise run the single batch
`UPDATE ... WHERE id = ANY(:ids)` setting `conciliado = TRUE`,
`fecha_conciliacion = now` and
`observaciones_conciliacion = 'Conciliado automáticamente'`, and commit.
`updateFails` models the update statement (or commit) raising: the session
is rolled back — the database is left unchanged — and the exception is
re-raised (`Except.error`). -/
def update_database (matches' : List MatchRec) (db : List Comprobante)
    (now : ℤ) (updateFails : Bool) : Except Unit ℕ × List Comprobante :=
  let comprobante_ids := matches'.map (fun m => m.comprobante_id)
  if comprobante_ids.isEmpty then (.ok 0, db)
  else if updateFails then (.error (), db)
  else
    (.ok comprobante_ids.length,
     db.map (fun c =>
       if c.id ∈ comprobante_ids then
         { c with conciliado := true
                  fecha_conciliacion := some now
                  observaciones_conciliacion := some "Conciliado automáticamente" }
       else c))

/-- The error surfaced by a failing run of `reconcile`. -/
inductive RunError where
  | loadError (e : ColumnsError)
  | persistError
deriving DecidableEq, Repr

/-- Observable outcome of one `BankReconciliation.reconcile` run: the
returned (or raised) result, the database state after the run, and whether
the report stage executed. -/
structure RunResult where
  outcome : Except RunError MatchResults
  db : List Comprobante
  reportGenerated : Bool

/-- `BankReconciliation.reconcile`: load the bank spreadsheet, load the
comprobantes, match, persist, then generate the report and print the
summary.  Any exception propagates (the `except` clause re-raises), so a
failing load or persist stage skips every later stage. -/
def reconcile (cfg : Config) (sheet : Sheet) (db : List Comprobante)
    (now : ℤ) (updateFails : Bool) : RunResult :=
  match load_bank_excel cfg sheet with
  | .error e => ⟨.error (.loadError e), db, false⟩
  | .ok df_banco =>
    let df_comprobantes := load_comprobantes_from_db cfg db
    let results := match_records cfg.tolerancia_dias cfg.tolerancia_monto
      df_banco df_comprobantes
    match update_database results.matches' db now updateFails with
    | (.error _, db2) => ⟨.error .persistError, db2, false⟩
    | (.ok _, db2) => ⟨.ok results, db2, true⟩

/-! Concrete fixtures used by the witness theorems. -/

/-- A concrete configuration: primary date format `%d/%m/%Y`, Argentine
number format, tolerances 1 day / 0.01, and the three mapped columns. -/
def wCfg : Config :=
  ⟨⟨.dmy, '/'⟩, ',', '.', 1, 1/100, "Fecha", "CUIT", "Importe"⟩

/-- A concrete normalized bank row. -/
def wB1 : BancoRow :=
  ⟨.cdate ⟨2024, 3, 1⟩, .cstr "20-12345678-9", .cstr "1000",
   "20123456789", 1000, some ⟨2024, 3, 1⟩⟩

/-- A concrete normalized receipt row eligible for `wB1`. -/
def wC1 : CompRow :=
  ⟨7, "macro", .cstr "1000", .cdate ⟨2024, 3, 1⟩, .cstr "20123456789", .na,
   "cli1", "img1", false, 1000, some ⟨2024, 3, 1⟩, "20123456789", ""⟩

/-- A second receipt row with the same sender tax-id, amount and date. -/
def wC2 : CompRow :=
  ⟨8, "macro", .cstr "1000", .cdate ⟨2024, 3, 1⟩, .cstr "20123456789", .na,
   "cli2", "img2", false, 1000, some ⟨2024, 3, 1⟩, "20123456789", ""⟩

/-- A concrete bank spreadsheet with one row that matches `wDb`'s single
comprobante. -/
def wSheet : Sheet :=
  ⟨["Fecha", "CUIT", "Importe"],
   [[("Fecha", .cdate ⟨2024, 3, 1⟩), ("CUIT", .cstr "20-12345678-9"),
     ("Importe", .cstr "1000")]]⟩

/-- The same spreadsheet with the configured cuit column missing. -/
def wSheetMissing : Sheet :=
  ⟨["Fecha", "Importe"],
   [[("Fecha", .cdate ⟨2024, 3, 1⟩), ("Importe", .cstr "1000")]]⟩

/-- A concrete database with one unreconciled comprobante that matches the
row of `wSheet`. -/
def wDb : List Comprobante :=
  [⟨7, "macro", .cstr "1000", .cdate ⟨2024, 3, 1⟩, .cstr "20123456789", .na,
    "cli1", "img1", false, none, none⟩]

/-- A comprobante whose amount cell is missing: `_normalize_monto` yields
`0.0`, an invalid (≤ 0) amount. -/
def wBadComp : Comprobante :=
  ⟨9, "macro", .na, .cdate ⟨2024, 3, 1⟩, .cstr "20123456789", .na,
   "cli9", "img9", false, none, none⟩

/-- A bank spreadsheet row with a missing tax-id cell (valid date and
amount). -/
def wSheetNoCuit : Sheet :=
  ⟨["Fecha", "CUIT", "Importe"],
   [[("Fecha", .cdate ⟨2024, 3, 1⟩), ("CUIT", .na),
     ("Importe", .cstr "1000")]]⟩

/-- The normalized bank row produced from `wSheetNoCuit`: its `cuit_norm`
is the empty string (not `NaN`), so the `dropna` never removes it. -/
def wB2 : BancoRow :=
  ⟨.cdate ⟨2024, 3, 1⟩, .na, .cstr "1000", "", 1000, some ⟨2024, 3, 1⟩⟩

/-- A valid tax-id string: only digits, hyphens, dots and spaces, with
exactly the 11 digits of a CUIT/CUIL.  Two valid tax-id strings differ
only in hyphens/dots/spaces iff their digit subsequences are equal. -/
def validTaxId (s : String) : Bool :=
  s.data.all (fun c => c.isDigit || c = '-' || c = '.' || c = ' ') &&
  ((s.data.filter Char.isDigit).length = 11 : Bool)

/-- Proof helper: rejoin the parts produced by `splitOnChar` (inverse of
the split, used to recover the shape of a string from its split). -/
def unsplitChar (sep : Char) : List (List Char) → List Char
  | [] => []
  | [a] => a
  | a :: rest => a ++ sep :: unsplitChar sep rest

/-! Helper lemmas about the matcher. -/

theorem eligible_eq_true_iff (told : ℤ) (tolm : ℚ) (mc : List ℕ) (b : BancoRow)
    (j : ℕ) (c : CompRow) :
    eligible told tolm mc b (j, c) = true ↔
      j ∉ mc ∧ c.remitente_id_norm = b.cuit_norm ∧
      (∃ fc fb, c.fecha_norm = some fc ∧ b.fecha_norm = some fb ∧
        |daysFromCivil fc - daysFromCivil fb| ≤ told) ∧
      |c.monto_norm - b.monto_norm| ≤ tolm := by
  cases hfc : c.fecha_norm with
  | none => simp [eligible, hfc]
  | some fc =>
    cases hfb : b.fecha_norm with
    | none => simp [eligible, hfc, hfb]
    | some fb =>
      simp only [eligible, hfc, hfb, Bool.and_eq_true, Bool.not_eq_true',
        decide_eq_true_eq, decide_eq_false_iff_not]
      constructor
      · rintro ⟨⟨⟨h1, h2⟩, h3⟩, h4⟩
        exact ⟨h1, h2, ⟨fc, fb, rfl, rfl, h3⟩, h4⟩
      · rintro ⟨h1, h2, ⟨fc', fb', hfc', hfb', h3⟩, h4⟩
        cases hfc'
        cases hfb'
        exact ⟨⟨⟨h1, h2⟩, h3⟩, h4⟩

theorem findMatch_eq_find? (told : ℤ) (tolm : ℚ) (b : BancoRow) (mc : List ℕ)
    (l : List (ℕ × CompRow)) :
    findMatch told tolm b mc l =
      (l.find? (eligible told tolm mc b)).map
        (fun jc => (jc.1, jc.2, dateDelta jc.2 b,
          |jc.2.monto_norm - b.monto_norm|)) := by
  induction l with
  | nil => simp [findMatch]
  | cons jc rest ih =>
    obtain ⟨j, c⟩ := jc
    by_cases hm : j ∈ mc
    · have he : eligible told tolm mc b (j, c) = false := by
        simp [eligible, hm]
      simp only [List.find?_cons, he]
      rw [← ih]
      simp [findMatch, hm]
    · by_cases hcu : b.cuit_norm = c.remitente_id_norm
      · cases hfc : c.fecha_norm with
        | none =>
          have he : eligible told tolm mc b (j, c) = false := by
            simp [eligible, hfc]
          simp only [List.find?_cons, he]
          rw [← ih]
          simp [findMatch, hm, hcu, hfc]
        | some fc =>
          cases hfb : b.fecha_norm with
          | none =>
            have he : eligible told tolm mc b (j, c) = false := by
              simp [eligible, hfc, hfb]
            simp only [List.find?_cons, he]
            rw [← ih]
            simp [findMatch, hm, hcu, hfc, hfb]
          | some fb =>
            by_cases htol : |daysFromCivil fc - daysFromCivil fb| ≤ told ∧
                |c.monto_norm - b.monto_norm| ≤ tolm
            · have he : eligible told tolm mc b (j, c) = true := by
                rw [eligible_eq_true_iff]
                exact ⟨hm, hcu.symm, ⟨fc, fb, hfc, hfb, htol.1⟩, htol.2⟩
              simp only [List.find?_cons, he]
              simp [findMatch, hm, hcu, hfc, hfb, htol, dateDelta]
            · have he : eligible told tolm mc b (j, c) = false := by
                rw [Bool.eq_false_iff]
                intro hcon
                rw [eligible_eq_true_iff] at hcon
                obtain ⟨_, _, ⟨fc', fb', hfc', hfb', h3⟩, h4⟩ := hcon
                rw [hfc] at hfc'
                rw [hfb] at hfb'
                cases hfc'
                cases hfb'
                exact htol ⟨h3, h4⟩
              simp only [List.find?_cons, he]
              rw [← ih]
              simp [findMatch, hm, hcu, hfc, hfb, htol]
      · have he : eligible told tolm mc b (j, c) = false := by
          rw [Bool.eq_false_iff]
          intro hcon
          rw [eligible_eq_true_iff] at hcon
          exact hcu hcon.2.1.symm
        simp only [List.find?_cons, he]
        rw [← ih]
        simp [findMatch, hm, hcu]

theorem matchLoop_eq_specGreedyLoop (told : ℤ) (tolm : ℚ)
    (comps : List (ℕ × CompRow)) (suffix : List (ℕ × BancoRow)) :
    ∀ mc, matchLoop told tolm comps suffix mc =
      specGreedyLoop told tolm comps suffix mc := by
  induction suffix with
  | nil => intro mc; rfl
  | cons ib rest ih =>
    intro mc
    obtain ⟨i, b⟩ := ib
    simp only [matchLoop, specGreedyLoop, findMatch_eq_find?]
    cases h : comps.find? (eligible told tolm mc b) with
    | none =>
      simp only [Option.map_none']
      exact ih mc
    | some jc =>
      obtain ⟨j, c⟩ := jc
      simp only [Option.map_some']
      exact congrArg _ (ih (mc ++ [j]))

theorem findMatch_some (told : ℤ) (tolm : ℚ) (b : BancoRow) (mc : List ℕ)
    (l : List (ℕ × CompRow)) (j : ℕ) (c : CompRow) (fd : ℤ) (md : ℚ)
    (h : findMatch told tolm b mc l = some (j, c, fd, md)) :
    (j, c) ∈ l ∧ j ∉ mc := by
  rw [findMatch_eq_find?, Option.map_eq_some'] at h
  obtain ⟨⟨j', c'⟩, hfind, heq⟩ := h
  obtain ⟨rfl, rfl, rfl, rfl⟩ := Prod.mk.injEq .. ▸ heq
  refine ⟨List.mem_of_find?_eq_some hfind, ?_⟩
  have := List.find?_some hfind
  rw [eligible_eq_true_iff] at this
  exact this.1

theorem matchLoop_snd_not_mem (told : ℤ) (tolm : ℚ)
    (comps : List (ℕ × CompRow)) (suffix : List (ℕ × BancoRow)) :
    ∀ mc p, p ∈ matchLoop told tolm comps suffix mc → p.2 ∉ mc := by
  induction suffix with
  | nil => intro mc p hp; simp [matchLoop] at hp
  | cons ib rest ih =>
    intro mc p hp
    obtain ⟨i, b⟩ := ib
    simp only [matchLoop] at hp
    cases hfm : findMatch told tolm b mc comps with
    | none =>
      rw [hfm] at hp
      exact ih mc p hp
    | some r =>
      obtain ⟨j, c, fd, md⟩ := r
      rw [hfm] at hp
      rcases List.mem_cons.mp hp with hhead | htail
      · have := (findMatch_some told tolm b mc comps j c fd md hfm).2
        rw [hhead]
        exact this
      · intro hmem
        exact ih (mc ++ [j]) p htail (List.mem_append_left _ hmem)

theorem matchLoop_snd_nodup (told : ℤ) (tolm : ℚ)
    (comps : List (ℕ × CompRow)) (suffix : List (ℕ × BancoRow)) :
    ∀ mc, ((matchLoop told tolm comps suffix mc).map Prod.snd).Nodup := by
  induction suffix with
  | nil => intro mc; simp [matchLoop]
  | cons ib rest ih =>
    intro mc
    obtain ⟨i, b⟩ := ib
    simp only [matchLoop]
    cases hfm : findMatch told tolm b mc comps with
    | none => exact ih mc
    | some r =>
      obtain ⟨j, c, fd, md⟩ := r
      simp only [List.map_cons, List.nodup_cons]
      refine ⟨?_, ih (mc ++ [j])⟩
      intro hmem
      obtain ⟨p, hp, hpj⟩ := List.mem_map.mp hmem
      have := matchLoop_snd_not_mem told tolm comps rest (mc ++ [j]) p hp
      exact this (by simp [hpj])

theorem matchLoop_mem_comps (told : ℤ) (tolm : ℚ)
    (comps : List (ℕ × CompRow)) (suffix : List (ℕ × BancoRow)) :
    ∀ mc p, p ∈ matchLoop told tolm comps suffix mc →
      (p.2, p.1.comprobante_row) ∈ comps := by
  induction suffix with
  | nil => intro mc p hp; simp [matchLoop] at hp
  | cons ib rest ih =>
    intro mc p hp
    obtain ⟨i, b⟩ := ib
    simp only [matchLoop] at hp
    cases hfm : findMatch told tolm b mc comps with
    | none =>
      rw [hfm] at hp
      exact ih mc p hp
    | some r =>
      obtain ⟨j, c, fd, md⟩ := r
      rw [hfm] at hp
      rcases List.mem_cons.mp hp with hhead | htail
      · rw [hhead]
        exact (findMatch_some told tolm b mc comps j c fd md hfm).1
      · exact ih (mc ++ [j]) p htail

theorem matchLoop_fst_sublist (told : ℤ) (tolm : ℚ)
    (comps : List (ℕ × CompRow)) (suffix : List (ℕ × BancoRow)) :
    ∀ mc, ((matchLoop told tolm comps suffix mc).map
        (fun p => p.1.banco_idx)).Sublist (suffix.map Prod.fst) := by
  induction suffix with
  | nil => intro mc; simp [matchLoop]
  | cons ib rest ih =>
    intro mc
    obtain ⟨i, b⟩ := ib
    simp only [matchLoop]
    cases hfm : findMatch told tolm b mc comps with
    | none => exact (ih mc).cons i
    | some r =>
      obtain ⟨j, c, fd, md⟩ := r
      simp only [List.map_cons]
      exact (ih (mc ++ [j])).cons₂ i

/-! Helper lemmas about `enumFrom` and counting. -/

theorem enumFrom_length {α : Type} (i : ℕ) (l : List α) :
    (enumFrom i l).length = l.length := by
  induction l generalizing i with
  | nil => rfl
  | cons a l ih => simp [enumFrom, ih]

theorem enumFrom_map_fst {α : Type} (i : ℕ) (l : List α) :
    (enumFrom i l).map Prod.fst = List.range' i l.length := by
  induction l generalizing i with
  | nil => rfl
  | cons a l ih => simp [enumFrom, List.range', ih]

theorem enumFrom_mem {α : Type} {j : ℕ} {x : α} :
    ∀ {i : ℕ} {l : List α}, (j, x) ∈ enumFrom i l →
      ∃ k, ∃ h : k < l.length, j = i + k ∧ l.get ⟨k, h⟩ = x := by
  intro i l
  induction l generalizing i with
  | nil => intro h; simp [enumFrom] at h
  | cons a l ih =>
    intro h
    rcases List.mem_cons.mp h with hhead | htail
    · obtain ⟨rfl, rfl⟩ := Prod.mk.injEq .. ▸ hhead
      exact ⟨0, Nat.succ_pos _, by omega, rfl⟩
    · obtain ⟨k, hk, hjk, hget⟩ := ih htail
      exact ⟨k + 1, Nat.succ_lt_succ hk, by omega, hget⟩

theorem length_filter_bool_compl {α : Type} (l : List α) (p : α → Bool) :
    (l.filter p).length + (l.filter (fun a => !(p a))).length = l.length := by
  induction l with
  | nil => rfl
  | cons a l ih =>
    by_cases h : p a = true
    · simp [List.filter_cons, h, ih]
      omega
    · rw [Bool.not_eq_true] at h
      simp [List.filter_cons, h, ih]
      omega

theorem count_filter_mem {α : Type} :
    ∀ (l : List (ℕ × α)) (S : List ℕ), (l.map Prod.fst).Nodup → S.Nodup →
      (∀ j ∈ S, j ∈ l.map Prod.fst) →
      (l.filter (fun p => (p.1 ∈ S : Bool))).length = S.length := by
  intro l
  induction l with
  | nil =>
    intro S _ _ hsub
    have : S = [] := List.eq_nil_iff_forall_not_mem.mpr (fun a ha => by
      simpa using hsub a ha)
    simp [this]
  | cons ia rest ih =>
    intro S hnd hS hsub
    obtain ⟨i, a⟩ := ia
    simp only [List.map_cons, List.nodup_cons] at hnd
    by_cases hi : i ∈ S
    · have hfc : rest.filter (fun p => (p.1 ∈ S : Bool)) =
          rest.filter (fun p => (p.1 ∈ S.erase i : Bool)) := by
        apply List.filter_congr
        intro p hp
        have hpne : p.1 ≠ i := by
          intro hcon
          exact hnd.1 (hcon ▸ List.mem_map_of_mem Prod.fst hp)
        simp [hS.mem_erase_iff, hpne]
      have hlen : (S.erase i).length = S.length - 1 :=
        List.length_erase_of_mem hi
      have hpos : 0 < S.length := List.length_pos_of_mem hi
      have := ih (S.erase i) hnd.2 (hS.erase i) (fun j hj => by
        have hj' := (hS.mem_erase_iff.mp hj)
        have := hsub j hj'.2
        simp only [List.map_cons, List.mem_cons] at this
        rcases this with hcon | hmem
        · exact absurd hcon hj'.1
        · exact hmem)
      simp only [List.filter_cons, decide_eq_true_eq, hi, if_pos, List.length_cons]
      rw [hfc, this, hlen]
      omega
    · have := ih S hnd.2 hS (fun j hj => by
        have := hsub j hj
        simp only [List.map_cons, List.mem_cons] at this
        rcases this with hcon | hmem
        · exact absurd (hcon ▸ hj) hi
        · exact hmem)
      simp only [List.filter_cons, decide_eq_true_eq, hi, if_false, List.length_cons]
      simpa using this

theorem forall2_of_mem_pairs {β γ : Type} (pairs : List (β × γ))
    (R : β → γ → Prop) (h : ∀ p ∈ pairs, R p.1 p.2) :
    List.Forall₂ R (pairs.map Prod.fst) (pairs.map Prod.snd) := by
  induction pairs with
  | nil => simp
  | cons p rest ih =>
    simp only [List.map_cons, List.forall₂_cons]
    exact ⟨h p (List.mem_cons_self p rest), ih (fun q hq =>
      h q (List.mem_cons_of_mem p hq))⟩

theorem match_records_matches_eq (told : ℤ) (tolm : ℚ) (banco : List BancoRow)
    (comps : List CompRow) :
    (match_records told tolm banco comps).matches' =
      (matchLoop told tolm (enumFrom 0 comps) (enumFrom 0 banco) []).map
        Prod.fst := rfl

theorem match_records_unmatched_banco_eq (told : ℤ) (tolm : ℚ)
    (banco : List BancoRow) (comps : List CompRow) :
    (match_records told tolm banco comps).unmatched_banco =
      ((enumFrom 0 banco).filter
        (fun ib => !(ib.1 ∈ (matchLoop told tolm (enumFrom 0 comps)
          (enumFrom 0 banco) []).map (fun p => p.1.banco_idx) : Bool))).map
        Prod.snd := rfl

theorem match_records_unmatched_comps_eq (told : ℤ) (tolm : ℚ)
    (banco : List BancoRow) (comps : List CompRow) :
    (match_records told tolm banco comps).unmatched_comprobantes =
      ((enumFrom 0 comps).filter
        (fun jc => !(jc.1 ∈ (matchLoop told tolm (enumFrom 0 comps)
          (enumFrom 0 banco) []).map Prod.snd : Bool))).map Prod.snd := rfl

/-- C1: for every pair of input record sets and tolerance configuration
(`date_tolerance_days ≥ 0`, `amount_tolerance ≥ 0`), `match_records`
implements the greedy first-eligible algorithm: scanning bank rows in input
order, each bank row is paired with the first not-yet-matched receipt in
input order whose normalized sender tax-id is string-equal to the bank
row's normalized tax-id, whose date (both dates must be present, else no
match) differs from the bank date by at most `date_tolerance_days`, and
whose amount differs by at most `amount_tolerance`; after a pair is
recorded the scan for that bank row stops, so when two receipts are both
eligible for one bank row exactly the first in scan order is matched and
the other remains unmatched.  Formally, `match_records` coincides with
`specGreedyResults`, the `find?`-based transcription of the spec's greedy
pseudocode. -/
theorem C1_match_records_greedy (told : ℤ) (tolm : ℚ) (banco : List BancoRow)
    (comps : List CompRow) (htd : 0 ≤ told) (htm : 0 ≤ tolm) :
    match_records told tolm banco comps =
      specGreedyResults told tolm banco comps := by
  unfold match_records specGreedyResults
  rw [matchLoop_eq_specGreedyLoop]

/-- Witness for C1: the tolerance hypotheses hold at the concrete
configuration (1 day, 0.01) and the theorem applies to the concrete
two-receipts-one-bank-row input. -/
theorem C1_match_records_greedy_witness :
    match_records 1 (1/100) [wB1] [wC1, wC2] =
      specGreedyResults 1 (1/100) [wB1] [wC1, wC2] :=
  C1_match_records_greedy 1 (1/100) [wB1] [wC1, wC2]
    (by norm_num) (by norm_num)

/-- C4: in every run of `match_records` each receipt appears in at most one
MatchResult and each bank movement appears in at most one MatchResult: the
bank indices recorded in the match list are pairwise distinct, and there is
a duplicate-free list of receipt positions aligned one-to-one with the
match list whose entries are the matched receipts. -/
theorem C4_at_most_one_match (told : ℤ) (tolm : ℚ) (banco : List BancoRow)
    (comps : List CompRow) :
    ((match_records told tolm banco comps).matches'.map
      (fun m => m.banco_idx)).Nodup ∧
    ∃ js : List ℕ, js.Nodup ∧
      List.Forall₂ (fun (m : MatchRec) (j : ℕ) =>
        ∃ h : j < comps.length, m.comprobante_row = comps.get ⟨j, h⟩)
        (match_records told tolm banco comps).matches' js := by
  rw [match_records_matches_eq]
  constructor
  · rw [List.map_map]
    have hsub := matchLoop_fst_sublist told tolm (enumFrom 0 comps)
      (enumFrom 0 banco) []
    have hnd : ((enumFrom 0 banco).map Prod.fst).Nodup := by
      rw [enumFrom_map_fst]
      exact List.nodup_range' _ _
    exact hsub.nodup hnd
  · refine ⟨(matchLoop told tolm (enumFrom 0 comps) (enumFrom 0 banco)
      []).map Prod.snd, matchLoop_snd_nodup told tolm _ _ [], ?_⟩
    apply forall2_of_mem_pairs
    intro p hp
    have hmem := matchLoop_mem_comps told tolm (enumFrom 0 comps)
      (enumFrom 0 banco) [] p hp
    obtain ⟨k, hk, hjk, hget⟩ := enumFrom_mem hmem
    have hk' : p.2 < comps.length := by omega
    refine ⟨hk', ?_⟩
    have : k = p.2 := by omega
    subst this
    exact hget.symm

/-- Witness for C4 at a concrete input: one bank row, two equal-key
receipts. -/
theorem C4_at_most_one_match_witness :
    ((match_records 1 (1/100) [wB1] [wC1, wC2]).matches'.map
      (fun m => m.banco_idx)).Nodup ∧
    ∃ js : List ℕ, js.Nodup ∧
      List.Forall₂ (fun (m : MatchRec) (j : ℕ) =>
        ∃ h : j < ([wC1, wC2] : List CompRow).length,
          m.comprobante_row = [wC1, wC2].get ⟨j, h⟩)
        (match_records 1 (1/100) [wB1] [wC1, wC2]).matches' js :=
  C4_at_most_one_match 1 (1/100) [wB1] [wC1, wC2]

/-- C5: partition completeness — for every pair of input record sets,
`|matches| + |unmatched_banco| = |bank input|` and
`|matches| + |unmatched_comprobantes| = |receipt input|`. -/
theorem C5_partition_completeness (told : ℤ) (tolm : ℚ)
    (banco : List BancoRow) (comps : List CompRow) :
    (match_records told tolm banco comps).matches'.length +
      (match_records told tolm banco comps).unmatched_banco.length =
      banco.length ∧
    (match_records told tolm banco comps).matches'.length +
      (match_records told tolm banco comps).unmatched_comprobantes.length =
      comps.length := by
  rw [match_records_matches_eq, match_records_unmatched_banco_eq,
    match_records_unmatched_comps_eq]
  constructor
  · have hfstnd : ((enumFrom 0 banco).map Prod.fst).Nodup := by
      rw [enumFrom_map_fst]
      exact List.nodup_range' _ _
    have hsub := matchLoop_fst_sublist told tolm (enumFrom 0 comps)
      (enumFrom 0 banco) []
    have hcount := count_filter_mem (enumFrom 0 banco)
      ((matchLoop told tolm (enumFrom 0 comps) (enumFrom 0 banco) []).map
        (fun p => p.1.banco_idx))
      hfstnd (hsub.nodup hfstnd) (fun j hj => hsub.subset hj)
    have hcompl := length_filter_bool_compl (enumFrom 0 banco)
      (fun p => (p.1 ∈ (matchLoop told tolm (enumFrom 0 comps)
        (enumFrom 0 banco) []).map (fun q => q.1.banco_idx) : Bool))
    have hel := enumFrom_length 0 banco
    simp only [List.length_map] at hcount ⊢
    omega
  · have hfstnd : ((enumFrom 0 comps).map Prod.fst).Nodup := by
      rw [enumFrom_map_fst]
      exact List.nodup_range' _ _
    have hsnd := matchLoop_snd_nodup told tolm (enumFrom 0 comps)
      (enumFrom 0 banco) []
    have hsubm : ∀ j ∈ (matchLoop told tolm (enumFrom 0 comps)
        (enumFrom 0 banco) []).map Prod.snd,
        j ∈ (enumFrom 0 comps).map Prod.fst := by
      intro j hj
      obtain ⟨p, hp, hpj⟩ := List.mem_map.mp hj
      have hmem := matchLoop_mem_comps told tolm (enumFrom 0 comps)
        (enumFrom 0 banco) [] p hp
      rw [← hpj]
      exact List.mem_map.mpr ⟨(p.2, p.1.comprobante_row), hmem, rfl⟩
    have hcount := count_filter_mem (enumFrom 0 comps)
      ((matchLoop told tolm (enumFrom 0 comps) (enumFrom 0 banco) []).map
        Prod.snd) hfstnd hsnd hsubm
    have hcompl := length_filter_bool_compl (enumFrom 0 comps)
      (fun p => (p.1 ∈ (matchLoop told tolm (enumFrom 0 comps)
        (enumFrom 0 banco) []).map Prod.snd : Bool))
    have hel := enumFrom_length 0 comps
    simp only [List.length_map] at hcount ⊢
    omega

/-- Witness for C5 at a concrete input: 1 match, 0 unmatched bank rows,
1 unmatched receipt. -/
theorem C5_partition_completeness_witness :
    (match_records 1 (1/100) [wB1] [wC1, wC2]).matches'.length +
      (match_records 1 (1/100) [wB1] [wC1, wC2]).unmatched_banco.length =
      ([wB1] : List BancoRow).length ∧
    (match_records 1 (1/100) [wB1] [wC1, wC2]).matches'.length +
      (match_records 1 (1/100) [wB1] [wC1, wC2]).unmatched_comprobantes.length
      = ([wC1, wC2] : List CompRow).length :=
  C5_partition_completeness 1 (1/100) [wB1] [wC1, wC2]

theorem update_database_success (ms : List MatchRec) (db : List Comprobante)
    (now : ℤ) :
    List.Forall₂ (fun c c' =>
      (c.id ∈ ms.map (fun m => m.comprobante_id) →
        c'.conciliado = true ∧ c'.fecha_conciliacion = some now ∧
        c'.observaciones_conciliacion = some "Conciliado automáticamente") ∧
      (c.id ∉ ms.map (fun m => m.comprobante_id) → c' = c))
      db (update_database ms db now false).2 := by
  by_cases hms : (ms.map (fun m => m.comprobante_id)).isEmpty = true
  · have hnil : ms.map (fun m => m.comprobante_id) = [] :=
      List.isEmpty_iff.mp hms
    have hdb : (update_database ms db now false).2 = db := by
      simp [update_database, hms]
    rw [hdb, List.forall₂_same]
    intro c _
    rw [hnil]
    exact ⟨fun h => absurd h (List.not_mem_nil _), fun _ => rfl⟩
  · have hdb : (update_database ms db now false).2 =
        db.map (fun c =>
          if c.id ∈ ms.map (fun m => m.comprobante_id) then
            { c with conciliado := true
                     fecha_conciliacion := some now
                     observaciones_conciliacion :=
                       some "Conciliado automáticamente" }
          else c) := by
      simp [update_database, hms]
    rw [hdb, List.forall₂_map_right_iff, List.forall₂_same]
    intro c _
    by_cases hc : c.id ∈ ms.map (fun m => m.comprobante_id)
    · rw [if_pos hc]
      exact ⟨fun _ => ⟨rfl, rfl, rfl⟩, fun h => absurd hc h⟩
    · rw [if_neg hc]
      exact ⟨fun h => absurd h hc, fun _ => rfl⟩

theorem update_database_failure (ms : List MatchRec) (db : List Comprobante)
    (now : ℤ) (hne : ms ≠ []) :
    update_database ms db now true = (.error (), db) := by
  have hms : (ms.map (fun m => m.comprobante_id)).isEmpty = false :=
    List.isEmpty_eq_false.mpr (by simpa using hne)
  simp [update_database, hms]

/-- C3: the PERSIST step is all-or-nothing and fail-fast.  On success,
`update_database` marks every matched receipt in the one batch update
(`conciliado = true`, reconciliation date set, notes
"Conciliado automáticamente") and leaves every other receipt untouched;
if the update statement fails, the batch is rolled back so the database is
unchanged (zero receipts marked) and the exception is re-raised; a
`reconcile` run whose persist stage fails ends with the original database,
a re-raised error, and the report stage not executed. -/
theorem C3_persist_atomic_failfast (ms : List MatchRec)
    (db : List Comprobante) (now : ℤ) (cfg : Config) (sheet : Sheet) :
    List.Forall₂ (fun c c' =>
      (c.id ∈ ms.map (fun m => m.comprobante_id) →
        c'.conciliado = true ∧ c'.fecha_conciliacion = some now ∧
        c'.observaciones_conciliacion = some "Conciliado automáticamente") ∧
      (c.id ∉ ms.map (fun m => m.comprobante_id) → c' = c))
      db (update_database ms db now false).2 ∧
    (ms ≠ [] → update_database ms db now true = (.error (), db)) ∧
    (∀ dfb, load_bank_excel cfg sheet = .ok dfb →
      (match_records cfg.tolerancia_dias cfg.tolerancia_monto dfb
        (load_comprobantes_from_db cfg db)).matches' ≠ [] →
      reconcile cfg sheet db now true =
        ⟨.error .persistError, db, false⟩) := by
  refine ⟨update_database_success ms db now,
    update_database_failure ms db now, ?_⟩
  intro dfb hload hne
  unfold reconcile
  simp only [hload]
  rw [update_database_failure _ db now hne]

theorem wMontoEval : normalize_monto wCfg (.cstr "1000") = 1000 := by
  have h0 : normalize_monto wCfg (.cstr "1000") =
      1 * ((1000 : ℕ) : ℚ) * (10 : ℚ) ^ (0 : ℤ) := rfl
  rw [h0]
  norm_num

theorem wCompsEval : load_comprobantes_from_db wCfg wDb = [wC1] := by
  have h0 : load_comprobantes_from_db wCfg wDb =
      [{ wC1 with monto_norm := normalize_monto wCfg (.cstr "1000") }] := rfl
  rw [h0, wMontoEval]
  rfl

theorem wBankEval : load_bank_excel wCfg wSheet = .ok [wB1] := by
  have h0 : load_bank_excel wCfg wSheet =
      .ok ([{ wB1 with monto_norm := normalize_monto wCfg (.cstr "1000") }].filter
        (fun r => ((0 : ℚ) < r.monto_norm : Bool))) := rfl
  rw [h0, wMontoEval]
  rfl

theorem wMatchEval :
    (match_records wCfg.tolerancia_dias wCfg.tolerancia_monto [wB1]
      (load_comprobantes_from_db wCfg wDb)).matches' ≠ [] := by
  rw [wCompsEval, match_records_matches_eq]
  norm_num [matchLoop, findMatch, enumFrom, wB1, wC1, wCfg, daysFromCivil]

/-- Witness for C3: at the concrete configuration, spreadsheet and
database (which produce exactly one match), a failing persist stage leaves
the database unchanged, re-raises, and skips the report. -/
theorem C3_persist_atomic_failfast_witness :
    reconcile wCfg wSheet wDb 99 true =
      ⟨.error .persistError, wDb, false⟩ :=
  (C3_persist_atomic_failfast [] wDb 99 wCfg wSheet).2.2
    [wB1] wBankEval wMatchEval

/-- C9: if any configured mapped column is absent from the bank
spreadsheet, `load_bank_excel` raises an error naming the missing columns
(the console diagnostic also reports the available columns, carried here on
the error value), and the run aborts before any database mutation: the
database is unchanged and the report stage never runs. -/
theorem C9_missing_column_aborts (cfg : Config) (sheet : Sheet)
    (col : String) (h1 : col ∈ mappingValues cfg)
    (h2 : col ∉ sheet.columns) (db : List Comprobante) (now : ℤ)
    (fails : Bool) :
    (∃ e : ColumnsError, load_bank_excel cfg sheet = .error e ∧
      col ∈ e.missing ∧ e.available = sheet.columns ∧
      ∀ c ∈ e.missing, c ∈ mappingValues cfg ∧ c ∉ sheet.columns) ∧
    (reconcile cfg sheet db now fails).db = db ∧
    (reconcile cfg sheet db now fails).reportGenerated = false ∧
    (∃ e, (reconcile cfg sheet db now fails).outcome =
      .error (.loadError e)) := by
  have hmem : col ∈ (mappingValues cfg).filter
      (fun c => !(c ∈ sheet.columns : Bool)) :=
    List.mem_filter.mpr ⟨h1, by simp [h2]⟩
  have hne : ¬ ((mappingValues cfg).filter
      (fun c => !(c ∈ sheet.columns : Bool))).isEmpty = true := by
    rw [List.isEmpty_iff]
    exact List.ne_nil_of_mem hmem
  have hload : load_bank_excel cfg sheet =
      .error ⟨(mappingValues cfg).filter
        (fun c => !(c ∈ sheet.columns : Bool)), sheet.columns⟩ := by
    unfold load_bank_excel
    rw [if_neg hne]
  have hrec : reconcile cfg sheet db now fails =
      ⟨.error (.loadError ⟨(mappingValues cfg).filter
        (fun c => !(c ∈ sheet.columns : Bool)), sheet.columns⟩),
       db, false⟩ := by
    unfold reconcile
    rw [hload]
  refine ⟨⟨_, hload, hmem, rfl, ?_⟩, by rw [hrec], by rw [hrec],
    ⟨_, by rw [hrec]⟩⟩
  intro c hc
  have := List.mem_filter.mp hc
  refine ⟨this.1, ?_⟩
  simpa using this.2

/-- Witness for C9: the concrete sheet `wSheetMissing` lacks the
configured column "CUIT"; the load fails naming it and the run mutates
nothing. -/
theorem C9_missing_column_aborts_witness :
    (∃ e : ColumnsError, load_bank_excel wCfg wSheetMissing = .error e ∧
      "CUIT" ∈ e.missing ∧ e.available = wSheetMissing.columns ∧
      ∀ c ∈ e.missing, c ∈ mappingValues wCfg ∧ c ∉ wSheetMissing.columns) ∧
    (reconcile wCfg wSheetMissing wDb 99 false).db = wDb ∧
    (reconcile wCfg wSheetMissing wDb 99 false).reportGenerated = false ∧
    (∃ e, (reconcile wCfg wSheetMissing wDb 99 false).outcome =
      .error (.loadError e)) :=
  C9_missing_column_aborts wCfg wSheetMissing "CUIT" (by decide) (by decide)
    wDb 99 false

theorem update_database_mono (ms : List MatchRec) (db : List Comprobante)
    (now : ℤ) (fails : Bool) :
    List.Forall₂ (fun c c' => c.conciliado = true → c'.conciliado = true)
      db (update_database ms db now fails).2 := by
  unfold update_database
  by_cases hms : (ms.map (fun m => m.comprobante_id)).isEmpty = true
  · rw [if_pos hms]
    exact List.forall₂_same.mpr (fun c _ => fun h => h)
  · rw [if_neg hms]
    cases fails with
    | true =>
      simp only [if_pos rfl]
      exact List.forall₂_same.mpr (fun c _ => fun h => h)
    | false =>
      simp only [Bool.false_eq_true, if_false]
      rw [List.forall₂_map_right_iff, List.forall₂_same]
      intro c _
      by_cases hc : c.id ∈ ms.map (fun m => m.comprobante_id)
      · rw [if_pos hc]
        intro _
        rfl
      · rw [if_neg hc]
        exact fun h => h

/-- C10: the `conciliado` flag is monotonic under reconciliation — for
every receipt with `conciliado = true` before a run, neither the persist
step nor a whole `reconcile` run ever sets it back to false (the only
write to `conciliado` sets it to TRUE). -/
theorem C10_conciliado_monotonic (ms : List MatchRec)
    (db : List Comprobante) (now : ℤ) (fails : Bool) (cfg : Config)
    (sheet : Sheet) :
    List.Forall₂ (fun c c' => c.conciliado = true → c'.conciliado = true)
      db (update_database ms db now fails).2 ∧
    List.Forall₂ (fun c c' => c.conciliado = true → c'.conciliado = true)
      db (reconcile cfg sheet db now fails).db := by
  refine ⟨update_database_mono ms db now fails, ?_⟩
  unfold reconcile
  cases hload : load_bank_excel cfg sheet with
  | error e =>
    exact List.forall₂_same.mpr (fun c _ => fun h => h)
  | ok dfb =>
    have hmono := update_database_mono
      (match_records cfg.tolerancia_dias cfg.tolerancia_monto dfb
        (load_comprobantes_from_db cfg db)).matches' db now fails
    rcases hu : update_database
      (match_records cfg.tolerancia_dias cfg.tolerancia_monto dfb
        (load_comprobantes_from_db cfg db)).matches' db now fails
      with ⟨r, db2⟩
    rw [hu] at hmono
    dsimp only
    rw [hu]
    cases r with
    | error e => simpa using hmono
    | ok n => simpa using hmono

theorem splitOnChar_ne_nil (sep : Char) (l : List Char) :
    splitOnChar sep l ≠ [] := by
  cases l with
  | nil => simp [splitOnChar]
  | cons c rest =>
    simp only [splitOnChar]
    by_cases h : c = sep
    · simp [h]
    · cases hr : splitOnChar sep rest with
      | nil => simp [h, hr]
      | cons a t => simp [h, hr]

theorem splitOnChar_cons_sep (sep : Char) (rest : List Char) :
    splitOnChar sep (sep :: rest) = [] :: splitOnChar sep rest := by
  simp [splitOnChar]

theorem splitOnChar_cons_ne (sep c : Char) (rest a : List Char)
    (t : List (List Char)) (h : c ≠ sep)
    (ht : splitOnChar sep rest = a :: t) :
    splitOnChar sep (c :: rest) = (c :: a) :: t := by
  simp [splitOnChar, h, ht]

theorem unsplitChar_splitOnChar (sep : Char) :
    ∀ l, unsplitChar sep (splitOnChar sep l) = l := by
  intro l
  induction l with
  | nil => rfl
  | cons c rest ih =>
    obtain ⟨a, t, ht⟩ := List.exists_cons_of_ne_nil (splitOnChar_ne_nil sep rest)
    by_cases h : c = sep
    · subst h
      rw [splitOnChar_cons_sep, ht]
      show c :: unsplitChar c (a :: t) = c :: rest
      rw [← ht, ih]
    · rw [splitOnChar_cons_ne sep c rest a t h ht]
      cases t with
      | nil =>
        have ha : a = rest := by
          rw [ht] at ih
          exact ih
        simp [unsplitChar, ha]
      | cons b u =>
        have hrest : unsplitChar sep (a :: b :: u) = rest := by
          rw [← ht]
          exact ih
        show (c :: a) ++ sep :: unsplitChar sep (b :: u) = c :: rest
        rw [← hrest]
        rfl

theorem splitOnChar_sep_not_mem_parts (sep : Char) :
    ∀ l p, p ∈ splitOnChar sep l → sep ∉ p := by
  intro l
  induction l with
  | nil =>
    intro p hp
    simp only [splitOnChar, List.mem_singleton] at hp
    simp [hp]
  | cons c rest ih =>
    intro p hp
    obtain ⟨a, t, ht⟩ := List.exists_cons_of_ne_nil (splitOnChar_ne_nil sep rest)
    by_cases h : c = sep
    · subst h
      rw [splitOnChar_cons_sep] at hp
      rcases List.mem_cons.mp hp with h1 | h2
      · simp [h1]
      · exact ih p h2
    · rw [splitOnChar_cons_ne sep c rest a t h ht] at hp
      rcases List.mem_cons.mp hp with h1 | h2
      · have hsa : sep ∉ a := ih a (ht ▸ List.mem_cons_self a t)
        subst h1
        simp only [List.mem_cons]
        rintro (h3 | h4)
        · exact h h3.symm
        · exact hsa h4
      · exact ih p (ht ▸ List.mem_cons_of_mem a h2)

theorem splitOnChar_of_not_mem (sep : Char) :
    ∀ l, sep ∉ l → splitOnChar sep l = [l] := by
  intro l
  induction l with
  | nil => intro h; rfl
  | cons c rest ih =>
    intro h
    simp only [List.mem_cons, not_or] at h
    have hc : c ≠ sep := fun hcon => h.1 hcon.symm
    rw [splitOnChar_cons_ne sep c rest rest [] hc (ih h.2)]

theorem parseDayL_some {a : List Char} {v : ℕ} (h : parseDayL a = some v) :
    a ≠ [] ∧ a.length ≤ 2 ∧ a.all Char.isDigit = true := by
  unfold parseDayL at h
  split_ifs at h with h1 h2
  · exact ⟨by simpa using h1.1, h1.2.1, h1.2.2⟩

theorem parseMonthL_some {a : List Char} {v : ℕ} (h : parseMonthL a = some v) :
    a ≠ [] ∧ a.length ≤ 2 ∧ a.all Char.isDigit = true := by
  unfold parseMonthL at h
  split_ifs at h with h1 h2
  · exact ⟨by simpa using h1.1, h1.2.1, h1.2.2⟩

theorem parseYearL_some {a : List Char} {v : ℕ} (h : parseYearL a = some v) :
    a.length = 4 ∧ a.all Char.isDigit = true := by
  unfold parseYearL at h
  split_ifs at h with h1
  · exact h1

theorem parseFmt_some_parts {f : Fmt} {l : List Char} {d : DateV}
    (h : parseFmt f l = some d) :
    ∃ a b c, splitOnChar f.sep l = [a, b, c] ∧
      a.all Char.isDigit = true ∧ b.all Char.isDigit = true ∧
      c.all Char.isDigit = true ∧
      (f.ord = .dmy → a.length ≤ 2 ∧ c.length = 4) ∧
      (f.ord = .ymd → a.length = 4 ∧ c.length ≤ 2) := by
  unfold parseFmt at h
  split at h
  · rename_i a b c heq
    refine ⟨a, b, c, heq, ?_⟩
    split at h
    · rename_i hord
      split at h
      · rename_i dd mm yy hda hmb hyc
        obtain ⟨_, hla, hda2⟩ := parseDayL_some hda
        obtain ⟨_, _, hmb2⟩ := parseMonthL_some hmb
        obtain ⟨hlc, hyc2⟩ := parseYearL_some hyc
        refine ⟨hda2, hmb2, hyc2, fun _ => ⟨hla, hlc⟩, fun hcon => ?_⟩
        rw [hord] at hcon
        exact absurd hcon (by simp)
      · exact absurd h (by simp)
    · rename_i hord
      split at h
      · rename_i yy mm dd hya hmb hdc
        obtain ⟨hla, hya2⟩ := parseYearL_some hya
        obtain ⟨_, _, hmb2⟩ := parseMonthL_some hmb
        obtain ⟨_, hlc, hdc2⟩ := parseDayL_some hdc
        refine ⟨hya2, hmb2, hdc2, fun hcon => ?_, fun _ => ⟨hla, hlc⟩⟩
        rw [hord] at hcon
        exact absurd hcon (by simp)
      · exact absurd h (by simp)
  · exact absurd h (by simp)

theorem parseFmt_chars {f : Fmt} {l : List Char} {d : DateV}
    (h : parseFmt f l = some d) :
    ∀ ch ∈ l, ch.isDigit = true ∨ ch = f.sep := by
  obtain ⟨a, b, c, hsp, ha, hb, hc, _, _⟩ := parseFmt_some_parts h
  have hl : a ++ f.sep :: (b ++ f.sep :: c) = l := by
    have hu := unsplitChar_splitOnChar f.sep l
    rw [hsp] at hu
    exact hu
  intro ch hch
  rw [← hl] at hch
  simp only [List.mem_append, List.mem_cons] at hch
  rcases hch with h1 | h2 | h3 | h4 | h5
  · exact Or.inl (List.all_eq_true.mp ha ch h1)
  · exact Or.inr h2
  · exact Or.inl (List.all_eq_true.mp hb ch h3)
  · exact Or.inr h4
  · exact Or.inl (List.all_eq_true.mp hc ch h5)

theorem parseFmt_other_sep {f g : Fmt} {l : List Char} {d : DateV}
    (h : parseFmt f l = some d) (hsep : g.sep ≠ f.sep)
    (hdig : g.sep.isDigit = false) : parseFmt g l = none := by
  have hnm : g.sep ∉ l := by
    intro hmem
    rcases parseFmt_chars h g.sep hmem with h1 | h2
    · rw [hdig] at h1
      exact Bool.false_ne_true h1
    · exact hsep h2
  unfold parseFmt
  rw [splitOnChar_of_not_mem g.sep l hnm]

theorem parseFmt_order_conflict {s : Char} {l : List Char} {d1 d2 : DateV}
    (h1 : parseFmt ⟨.dmy, s⟩ l = some d1)
    (h2 : parseFmt ⟨.ymd, s⟩ l = some d2) : False := by
  obtain ⟨a, b, c, hsp1, _, _, _, hdmy, _⟩ := parseFmt_some_parts h1
  obtain ⟨a', b', c', hsp2, _, _, _, _, hymd⟩ := parseFmt_some_parts h2
  rw [hsp1] at hsp2
  obtain ⟨rfl, rfl, rfl⟩ : a = a' ∧ b = b' ∧ c = c' := by
    simpa using hsp2
  have e1 := (hdmy rfl).1
  have e2 := (hymd rfl).1
  omega

theorem commonFormats_agree {l : List Char} {f g : Fmt}
    (hf : f ∈ commonFormats) (hg : g ∈ commonFormats) {d1 d2 : DateV}
    (h1 : parseFmt f l = some d1) (h2 : parseFmt g l = some d2) :
    d1 = d2 := by
  simp only [commonFormats, List.mem_cons, List.not_mem_nil, or_false] at hf hg
  rcases hf with rfl | rfl | rfl | rfl <;> rcases hg with rfl | rfl | rfl | rfl <;>
    first
      | exact Option.some.inj (h1.symm.trans h2)
      | exact (parseFmt_order_conflict h1 h2).elim
      | exact (parseFmt_order_conflict h2 h1).elim
      | (rw [parseFmt_other_sep h1 (by decide) (by decide)] at h2
         exact Option.noConfusion h2)

theorem tryFormats_eq_none (l : List Char) :
    ∀ fs, tryFormats fs l = none ↔ ∀ f ∈ fs, parseFmt f l = none := by
  intro fs
  induction fs with
  | nil => simp [tryFormats]
  | cons f rest ih =>
    simp only [tryFormats]
    cases hp : parseFmt f l with
    | some d =>
      simp only [List.mem_cons]
      constructor
      · intro hcon
        exact absurd hcon (by simp)
      · intro hall
        rw [hall f (Or.inl rfl)] at hp
        exact Option.noConfusion hp
    | none =>
      rw [ih]
      constructor
      · intro hall f' hf'
        rcases List.mem_cons.mp hf' with rfl | hmem
        · exact hp
        · exact hall f' hmem
      · intro hall f' hf'
        exact hall f' (List.mem_cons_of_mem f hf')

theorem parseFmt_nil (f : Fmt) : parseFmt f [] = none := rfl

/-- C8: `_parse_fecha` attempts the configured primary format first and,
on failure, the fixed ordered fallback list day/month/year,
year-month-day, day-month-year, year/month/day (`commonFormats`),
returning `None` only when all fail; and for every date string parseable
by any of the fallback formats, the calendar date returned is the same
regardless of which fallback format matched first (any two fallback
formats that both parse the stripped string agree on the date — in fact a
CPython `%Y` field is exactly four digits, so at most one fallback format
can match a given string). -/
theorem C8_parse_fecha_fallbacks (primary : Fmt) (s : String) :
    (∀ d, parseFmt primary (pyStrip s.data) = some d →
      parse_fecha primary (.cstr s) = some d) ∧
    (parse_fecha primary (.cstr s) = none ↔
      (parseFmt primary (pyStrip s.data) = none ∧
       ∀ f ∈ commonFormats, parseFmt f (pyStrip s.data) = none)) ∧
    (∀ f g, f ∈ commonFormats → g ∈ commonFormats →
      ∀ d1 d2, parseFmt f (pyStrip s.data) = some d1 →
        parseFmt g (pyStrip s.data) = some d2 → d1 = d2) := by
  by_cases hs : s = ""
  · subst hs
    have hnil : pyStrip ("" : String).data = [] := rfl
    refine ⟨?_, ?_, ?_⟩
    · intro d hd
      rw [hnil, parseFmt_nil] at hd
      exact absurd hd (by simp)
    · constructor
      · intro _
        rw [hnil]
        exact ⟨parseFmt_nil primary, fun f _ => parseFmt_nil f⟩
      · intro _
        rfl
    · intro f g hf hg d1 d2 h1 h2
      exact commonFormats_agree hf hg h1 h2
  · have hred : parse_fecha primary (.cstr s) =
        match parseFmt primary (pyStrip s.data) with
        | some d => some d
        | none => tryFormats commonFormats (pyStrip s.data) := by
      simp [parse_fecha, cellBlank, cellStr, hs]
    refine ⟨?_, ?_, ?_⟩
    · intro d hd
      rw [hred, hd]
    · rw [hred]
      cases hp : parseFmt primary (pyStrip s.data) with
      | some d => simp
      | none =>
        rw [tryFormats_eq_none]
        simp
    · intro f g hf hg d1 d2 h1 h2
      exact commonFormats_agree hf hg h1 h2

/-- Witness for C8: the primary format parses a concrete day/month/year
string to the expected calendar date. -/
theorem C8_parse_fecha_fallbacks_witness :
    parse_fecha ⟨.dmy, '/'⟩ (.cstr "01/03/2024") = some ⟨2024, 3, 1⟩ :=
  (C8_parse_fecha_fallbacks ⟨.dmy, '/'⟩ "01/03/2024").1 ⟨2024, 3, 1⟩
    (by decide)

theorem pyIsDigit_filter_eq_any (l : List Char) :
    pyIsDigit (l.filter Char.isDigit) = l.any Char.isDigit := by
  cases h : l.any Char.isDigit with
  | false =>
    have hnil : l.filter Char.isDigit = [] := by
      rw [List.filter_eq_nil]
      intro a ha hd
      rw [List.any_eq_false] at h
      exact h a ha hd
    rw [hnil]
    rfl
  | true =>
    obtain ⟨a, ha, hd⟩ := List.any_eq_true.mp h
    have hne : l.filter Char.isDigit ≠ [] := by
      intro hcon
      exact List.filter_eq_nil.mp hcon a ha hd
    simp only [pyIsDigit, List.isEmpty_eq_false.mpr hne, Bool.not_false,
      Bool.true_and, List.all_eq_true]
    intro a' ha'
    exact (List.mem_filter.mp ha').2

theorem extract_cuit_eq_none_of_any {s : String}
    (h : (scannedSegment s.data).any Char.isDigit = true) :
    extract_cuit_bank_excel (.cstr s) = none := by
  simp [extract_cuit_bank_excel, pyIsDigit_filter_eq_any, h]

theorem extract_cuit_some_zero_iff (s : String) :
    extract_cuit_bank_excel (.cstr s) = some 0 ↔
      (scannedSegment s.data).any Char.isDigit = false := by
  cases h : (scannedSegment s.data).any Char.isDigit <;>
    simp [extract_cuit_bank_excel, pyIsDigit_filter_eq_any, h]

theorem extract_cuit_none_or_zero (c : Cell) :
    extract_cuit_bank_excel c = none ∨ extract_cuit_bank_excel c = some 0 := by
  cases c with
  | na => exact Or.inl rfl
  | cdate d => exact Or.inl rfl
  | cstr s =>
    cases h : (scannedSegment s.data).any Char.isDigit
    · exact Or.inr ((extract_cuit_some_zero_iff s).mpr h)
    · exact Or.inl (extract_cuit_eq_none_of_any h)

/-- C7: for every string input whose scanned segment contains at least one
digit, `_extract_cuit_bank_excel` returns `None` (the computed integer
CUIT is never returned — the function falls off the end after the
`isdigit` branch), it returns 0 exactly when the scanned segment contains
no digits, and the `cuit_norm` column produced by
`Reconciliator.load_bank_excel` therefore never contains an extracted CUIT
value (every entry is `None` or 0). -/
theorem C7_extract_cuit_never_returns (s : String) (col : List Cell) :
    ((scannedSegment s.data).any Char.isDigit = true →
      extract_cuit_bank_excel (.cstr s) = none) ∧
    (extract_cuit_bank_excel (.cstr s) = some 0 ↔
      (scannedSegment s.data).any Char.isDigit = false) ∧
    (∀ p ∈ reconciliator_load_bank_excel col,
      p.2 = none ∨ p.2 = some 0) := by
  refine ⟨fun h => extract_cuit_eq_none_of_any h,
    extract_cuit_some_zero_iff s, ?_⟩
  intro p hp
  unfold reconciliator_load_bank_excel at hp
  obtain ⟨c0, _, rfl⟩ := List.mem_map.mp (List.mem_filter.mp hp).1
  exact extract_cuit_none_or_zero c0

/-- Witness for C7: a concrete bank concept string with digits in the
scanned segment yields `None`; one without digits yields 0. -/
theorem C7_extract_cuit_never_returns_witness :
    extract_cuit_bank_excel (.cstr "TRANSF-20123456789") = none ∧
    extract_cuit_bank_excel (.cstr "abc-def") = some 0 :=
  ⟨(C7_extract_cuit_never_returns "TRANSF-20123456789" []).1 (by decide),
   ((C7_extract_cuit_never_returns "abc-def" []).2.1).mpr (by decide)⟩

theorem char_isDigit_not_isWhitespace {c : Char} (h : c.isDigit = true) :
    c.isWhitespace = false := by
  by_contra hcon
  rw [Bool.not_eq_false] at hcon
  simp only [Char.isWhitespace, Bool.or_eq_true, decide_eq_true_eq] at hcon
  rcases hcon with ((h1 | h1) | h1) | h1 <;> subst h1 <;>
    exact absurd h (by decide)

theorem dropWhile_eq_self_of_forall {p : Char → Bool} {l : List Char}
    (h : ∀ c ∈ l, p c = false) : l.dropWhile p = l := by
  cases l with
  | nil => rfl
  | cons c t =>
    rw [List.dropWhile_cons]
    simp [h c (List.mem_cons_self c t)]

theorem pyStrip_of_all_digits {l : List Char}
    (h : l.all Char.isDigit = true) : pyStrip l = l := by
  have hws : ∀ c ∈ l, c.isWhitespace = false := fun c hc =>
    char_isDigit_not_isWhitespace (List.all_eq_true.mp h c hc)
  unfold pyStrip
  rw [dropWhile_eq_self_of_forall hws,
    dropWhile_eq_self_of_forall (fun c hc => hws c (List.mem_reverse.mp hc)),
    List.reverse_reverse]

theorem filters_eq_filter_digits {l : List Char}
    (h : l.all (fun c => c.isDigit || c = '-' || c = '.' || c = ' ') = true) :
    ((l.filter (· ≠ '-')).filter (· ≠ ' ')).filter (· ≠ '.') =
      l.filter Char.isDigit := by
  rw [List.filter_filter, List.filter_filter]
  apply List.filter_congr
  intro c hc
  have hcase : ((c.isDigit = true ∨ c = '-') ∨ c = '.') ∨ c = ' ' := by
    simpa using List.all_eq_true.mp h c hc
  rcases hcase with ((hd | rfl) | rfl) | rfl
  · have h1 : c ≠ '-' := fun e => by subst e; exact absurd hd (by decide)
    have h2 : c ≠ ' ' := fun e => by subst e; exact absurd hd (by decide)
    have h3 : c ≠ '.' := fun e => by subst e; exact absurd hd (by decide)
    simp [h1, h2, h3, hd]
  · decide
  · decide
  · decide

theorem normalize_cuit_of_valid {s : String} (h : validTaxId s = true) :
    normalize_cuit (.cstr s) = String.mk (s.data.filter Char.isDigit) := by
  rw [validTaxId, Bool.and_eq_true] at h
  obtain ⟨hall, hlen⟩ := h
  have hlen2 : (s.data.filter Char.isDigit).length = 11 := by simpa using hlen
  have hne : ¬ s = "" := by
    intro hcon
    subst hcon
    simp at hlen2
  unfold normalize_cuit
  rw [if_neg (by simpa [cellBlank] using hne)]
  show String.mk (pyStrip (((s.data.filter (· ≠ '-')).filter
    (· ≠ ' ')).filter (· ≠ '.'))) = _
  rw [filters_eq_filter_digits hall, pyStrip_of_all_digits (by
    rw [List.all_eq_true]
    intro c hc
    exact (List.mem_filter.mp hc).2)]

/-- Counterexample for C6: the valid tax-id strings `"20123456789"` and
`"20123456789-"` differ only by a hyphen (their digit subsequences are
equal), yet `Reconciliator._extract_cuit_bank_excel` maps the first to
`None` and the second to 0 — the two normalization implementations do not
both produce identical canonical output on hyphen-only variations. -/
theorem C6_tax_id_counterexample :
    validTaxId "20123456789" = true ∧ validTaxId "20123456789-" = true ∧
    "20123456789".data.filter Char.isDigit =
      "20123456789-".data.filter Char.isDigit ∧
    extract_cuit_bank_excel (.cstr "20123456789") ≠
      extract_cuit_bank_excel (.cstr "20123456789-") := by
  refine ⟨by decide, by decide, by decide, ?_⟩
  intro hcon
  rw [extract_cuit_eq_none_of_any (by decide),
    (extract_cuit_some_zero_iff "20123456789-").mpr (by decide)] at hcon
  exact Option.noConfusion hcon

/-- C6 amended: for every pair of valid tax-id strings that differ only in
hyphens, dots and spaces, `BankReconciliation._normalize_cuit` produces
identical canonical output; `Reconciliator._extract_cuit_bank_excel` does
not satisfy this invariance (see the counterexample).  Its output on a
string depends only on whether the scanned segment contains a digit
(`None` when it does, 0 when it does not), so on any two strings its
outputs agree exactly when the two scanned segments agree on containing a
digit. -/
theorem C6_tax_id_invariance_amended (s1 s2 : String) :
    (validTaxId s1 = true → validTaxId s2 = true →
      s1.data.filter Char.isDigit = s2.data.filter Char.isDigit →
      normalize_cuit (.cstr s1) = normalize_cuit (.cstr s2)) ∧
    ((scannedSegment s1.data).any Char.isDigit =
        (scannedSegment s2.data).any Char.isDigit ↔
      extract_cuit_bank_excel (.cstr s1) =
        extract_cuit_bank_excel (.cstr s2)) := by
  constructor
  · intro h1 h2 hdig
    rw [normalize_cuit_of_valid h1, normalize_cuit_of_valid h2, hdig]
  · constructor
    · intro hpres
      cases h1 : (scannedSegment s1.data).any Char.isDigit with
      | false =>
        have h2 : (scannedSegment s2.data).any Char.isDigit = false := by
          rw [← hpres]
          exact h1
        rw [(extract_cuit_some_zero_iff s1).mpr h1,
          (extract_cuit_some_zero_iff s2).mpr h2]
      | true =>
        have h2 : (scannedSegment s2.data).any Char.isDigit = true := by
          rw [← hpres]
          exact h1
        rw [extract_cuit_eq_none_of_any h1, extract_cuit_eq_none_of_any h2]
    · intro heq
      cases h1 : (scannedSegment s1.data).any Char.isDigit with
      | false =>
        cases h2 : (scannedSegment s2.data).any Char.isDigit with
        | false => rfl
        | true =>
          rw [(extract_cuit_some_zero_iff s1).mpr h1,
            extract_cuit_eq_none_of_any h2] at heq
          exact Option.noConfusion heq
      | true =>
        cases h2 : (scannedSegment s2.data).any Char.isDigit with
        | false =>
          rw [extract_cuit_eq_none_of_any h1,
            (extract_cuit_some_zero_iff s2).mpr h2] at heq
          exact Option.noConfusion heq
        | true => rfl

/-- Witness for the amended C6 at concrete valid tax-id strings: the
normalized outputs of two dot/hyphen variants coincide, and the extractor
agrees both on a pair whose scanned segments contain digits and on a pair
whose scanned segments are digit-free. -/
theorem C6_tax_id_invariance_amended_witness :
    normalize_cuit (.cstr "20-12345678-9") =
      normalize_cuit (.cstr "20.123.456.789") ∧
    extract_cuit_bank_excel (.cstr "20-12345678-9") =
      extract_cuit_bank_excel (.cstr "TRANSF-123") ∧
    extract_cuit_bank_excel (.cstr "20123456789-") =
      extract_cuit_bank_excel (.cstr "20123456789--") :=
  ⟨(C6_tax_id_invariance_amended "20-12345678-9" "20.123.456.789").1
      (by decide) (by decide) (by decide),
   (C6_tax_id_invariance_amended "20-12345678-9" "TRANSF-123").2.mp
      (by decide),
   (C6_tax_id_invariance_amended "20123456789-" "20123456789--").2.mp
      (by decide)⟩

theorem wBankEval2 : load_bank_excel wCfg wSheetNoCuit = .ok [wB2] := by
  have h0 : load_bank_excel wCfg wSheetNoCuit =
      .ok ([{ wB2 with monto_norm := normalize_monto wCfg (.cstr "1000") }].filter
        (fun r => ((0 : ℚ) < r.monto_norm : Bool))) := rfl
  rw [h0, wMontoEval]
  rfl

/-- Counterexample for C2: the receipt loader performs no exclusion — a
comprobante with a missing amount (normalized amount 0 ≤ 0) still appears
in the candidate pool handed to the matcher; and the bank loader keeps a
row whose tax-id cell is missing (its `cuit_norm` is the empty string, so
the `dropna` on that column never fires). -/
theorem C2_pool_filtering_counterexample :
    (∃ r ∈ load_comprobantes_from_db wCfg [wBadComp], r.monto_norm ≤ 0) ∧
    (∃ rows, load_bank_excel wCfg wSheetNoCuit = .ok rows ∧
      ∃ r ∈ rows, r.cuit_norm = "") := by
  constructor
  · exact ⟨_, List.mem_cons_self _ _, by decide⟩
  · exact ⟨[wB2], wBankEval2, wB2, List.mem_cons_self _ _, rfl⟩

/-- C2 amended: the bank loader does drop every row with an unparsable or
missing date or a non-positive normalized amount (rows with a missing or
unparsable tax-id are kept — the normalized tax-id is the empty string,
not null); the receipt loader drops nothing, so records with invalid keys
do reach `match_records` on the receipt side. -/
theorem C2_pool_filtering_amended (cfg : Config) (sheet : Sheet)
    (db : List Comprobante) :
    (∀ rows, load_bank_excel cfg sheet = .ok rows →
      ∀ r ∈ rows, r.fecha_norm.isSome = true ∧ 0 < r.monto_norm) ∧
    (load_comprobantes_from_db cfg db).length = db.length := by
  constructor
  · intro rows hok r hr
    unfold load_bank_excel at hok
    dsimp only at hok
    split_ifs at hok with hmiss
    rw [← Except.ok.inj hok] at hr
    have h2 := List.mem_filter.mp hr
    have h1 := List.mem_filter.mp h2.1
    refine ⟨h1.2, ?_⟩
    simpa using h2.2
  · exact List.length_map db _

/-- Witness for the amended C2: the concrete loaded bank row has a present
date and positive amount, and the receipt loader preserves the length of
the concrete database. -/
theorem C2_pool_filtering_amended_witness :
    (wB1.fecha_norm.isSome = true ∧ 0 < wB1.monto_norm) ∧
    (load_comprobantes_from_db wCfg wDb).length = wDb.length :=
  ⟨(C2_pool_filtering_amended wCfg wSheet wDb).1 [wB1] wBankEval wB1
      (List.mem_cons_self _ _),
   (C2_pool_filtering_amended wCfg wSheet wDb).2⟩

/-- Witness for C10 at the concrete run that marks comprobante 7. -/
theorem C10_conciliado_monotonic_witness :
    List.Forall₂ (fun c c' => c.conciliado = true → c'.conciliado = true)
      wDb (update_database [] wDb 99 false).2 ∧
    List.Forall₂ (fun c c' => c.conciliado = true → c'.conciliado = true)
      wDb (reconcile wCfg wSheet wDb 99 false).db :=
  C10_conciliado_monotonic [] wDb 99 false wCfg wSheet

end BankRec
